import Mathlib

set_option maxHeartbeats 1000000

/-!
# Verification of the eager7/dashd peer-address management subsystem

Two parts:

* `Chaincfg` — a shallow embedding of the network-parameter registration code
  (`chaincfg.Register`, `HDPrivateKeyToPublicKeyID` and the four package-level
  registration maps) taken directly from the repository source.

* `AddrMgr` — a model of the bucketed address manager (New/Tried tables,
  eviction, promotion, selection, persistence).  The address-manager
  implementation files of the repository are not in the source snapshot (only
  the `addrmgr` package's logging shim is), so the operations are modelled
  from the specification document and the properties are settled against that
  model.
-/

namespace Chaincfg

/-- A fixed-size 4-byte identifier, mirroring Go's `[4]byte`
(`HDPrivateKeyID` / `HDPublicKeyID` in `chaincfg.Params`). -/
structure Bytes4 where
  b0 : Nat
  b1 : Nat
  b2 : Nat
  b3 : Nat
deriving DecidableEq

/-- The slice view `id[:]` of a Go `[4]byte`. -/
def Bytes4.toList (b : Bytes4) : List Nat :=
  [b.b0, b.b1, b.b2, b.b3]

/-- Rebuild a `[4]byte` from a slice, mirroring `copy(key[:], id)` on a
zero-initialized array (only the first four elements are used). -/
def bytes4OfList (l : List Nat) : Bytes4 :=
  { b0 := l.getD 0 0, b1 := l.getD 1 0, b2 := l.getD 2 0, b3 := l.getD 3 0 }

/-- The fields of `chaincfg.Params` that the registration code reads
(`Net`, `PubKeyHashAddrID`, `ScriptHashAddrID`, `HDPrivateKeyID`,
`HDPublicKeyID`). -/
structure ChainParams where
  net : Nat
  pubKeyHashAddrID : Nat
  scriptHashAddrID : Nat
  hdPrivateKeyID : Bytes4
  hdPublicKeyID : Bytes4
deriving DecidableEq

/-- The two sentinel errors declared in the source:
`ErrDuplicateNet` and `ErrUnknownHDKeyID`. -/
inductive ChainErr where
  | duplicateNet
  | unknownHDKeyID
deriving DecidableEq

/-- The four package-level registration maps:
`registeredNets`, `pubKeyHashAddrIDs`, `scriptHashAddrIDs` are sets
(`map[...]struct{}{}`), `hdPrivToPubKeyIDs` maps `[4]byte` to `[]byte`.
Sets are lists with membership as the observable; the HD map is an
association list where the most recent binding shadows older ones,
matching Go map overwrite semantics under lookup. -/
structure RegState where
  registeredNets : List Nat
  pubKeyHashAddrIDs : List Nat
  scriptHashAddrIDs : List Nat
  hdPrivToPubKeyIDs : List (Bytes4 × List Nat)
deriving DecidableEq

/-- First-match association-list lookup, the observable of a Go map. -/
def lookupHD : List (Bytes4 × List Nat) → Bytes4 → Option (List Nat)
  | [], _ => none
  | p :: t, k => if p.1 = k then some p.2 else lookupHD t k

/-- `chaincfg.Register`: returns `ErrDuplicateNet` and leaves the maps
untouched when `params.Net` is already registered; otherwise inserts the
four entries derived from `params` and returns no error.  The pair mirrors
Go's `(error, mutated package state)`. -/
def Register (st : RegState) (p : ChainParams) : Option ChainErr × RegState :=
  if p.net ∈ st.registeredNets then
    (some ChainErr.duplicateNet, st)
  else
    (none,
      { registeredNets := p.net :: st.registeredNets
        pubKeyHashAddrIDs := p.pubKeyHashAddrID :: st.pubKeyHashAddrIDs
        scriptHashAddrIDs := p.scriptHashAddrID :: st.scriptHashAddrIDs
        hdPrivToPubKeyIDs := (p.hdPrivateKeyID, p.hdPublicKeyID.toList) :: st.hdPrivToPubKeyIDs })

/-- `chaincfg.HDPrivateKeyToPublicKeyID`: rejects ids whose length is not 4,
otherwise looks the id up in `hdPrivToPubKeyIDs`. -/
def HDPrivateKeyToPublicKeyID (st : RegState) (id : List Nat) : Except ChainErr (List Nat) :=
  if id.length ≠ 4 then
    Except.error ChainErr.unknownHDKeyID
  else
    match lookupHD st.hdPrivToPubKeyIDs (bytes4OfList id) with
    | some pubBytes => Except.ok pubBytes
    | none => Except.error ChainErr.unknownHDKeyID

/-- `IsPubKeyHashAddrID` from the source (membership in the set). -/
def IsPubKeyHashAddrID (st : RegState) (id : Nat) : Bool :=
  st.pubKeyHashAddrIDs.contains id

/-- `IsScriptHashAddrID` from the source (membership in the set). -/
def IsScriptHashAddrID (st : RegState) (id : Nat) : Bool :=
  st.scriptHashAddrIDs.contains id

end Chaincfg

namespace AddrMgr

/-!
## Address-manager model

Modelled from the spec: the `addrmgr` implementation files of the repository
are not in the source snapshot (only the package's logging shim is), so the
data model (§3), the bucket hashing (§4.1), the KnownAddress lifecycle (§4.2),
the eviction policy (§4.3), selection (§4.4) and persistence (§4.5) are
modelled from the specification's words.  Randomized choices (extra bucket
references, tournament sampling, selection order) are supplied as explicit
oracle arguments.
-/

/-- Modelled from the spec: reference table geometry — 1024 New buckets,
64 Tried buckets, 64 slots per bucket (§3). -/
def newBucketCount : Nat := 1024

/-- Number of Tried-table buckets (reference size 64, §3). -/
def triedBucketCount : Nat := 64

/-- Fixed slot capacity of every bucket in either table (reference size 64). -/
def bucketSize : Nat := 64

/-- Per-address cap on simultaneous New-bucket references (§3, "a small
per-address cap"). -/
def refCap : Nat := 8

/-- Bounded retry count of connection-candidate selection (§4.4). -/
def retryLimit : Nat := 100

/-- Number of tournament rounds of the eviction policy (§4.3, "a small fixed
number of rounds"). -/
def tournamentRounds : Nat := 4

/-- Fixed floor of the discovery-response cap (§4.4 `fixedFloor`). -/
def addrFloor : Nat := 23

/-- Percentage of the table the discovery response may reveal
(§4.4 `fraction`, as a percentage). -/
def addrPercent : Nat := 23

/-- Serialization format version (§6, "format version"). -/
def serialVersion : Nat := 1

/-- Terrible predicate: slack allowed on future-claimed timestamps. -/
def futureSlack : Int := 600

/-- Terrible predicate: staleness threshold (reference: 30 days, in seconds). -/
def staleSeconds : Int := 2592000

/-- Terrible predicate: retry ceiling (reference: 10). -/
def retryCeiling : Nat := 10

/-- Terrible predicate: back-off window after a failed attempt (seconds). -/
def backoffSeconds : Int := 600

/-- `NetAddress` (§3): canonicalized IP, port, last-claimed-valid timestamp,
advertised service bitmask.  The IP is abstracted to a natural number. -/
structure NetAddress where
  ip : Nat
  port : Nat
  timestamp : Int
  services : Nat
deriving DecidableEq

/-- Identity key of an address: the (IP, port) pair (§3). -/
abbrev AddrKey := Nat × Nat

/-- Key of a `NetAddress`. -/
def keyOf (na : NetAddress) : AddrKey := (na.ip, na.port)

/-- `KnownAddress` (§3): one stored peer record. -/
structure KnownAddress where
  na : NetAddress
  srcAddr : NetAddress
  attempts : Nat
  lastAttempt : Int
  lastSuccess : Int
  tried : Bool
  refs : Nat
deriving DecidableEq

/-- Modelled from the spec: `Group` — coarsened address prefix (the /16
network for IPv4), used everywhere bucket placement is computed (§3). -/
def groupOf (na : NetAddress) : Nat := na.ip / 65536

/-- Modelled from the spec (§4.1): New-table bucket index, a deterministic
keyed hash over (secret, source group, address group). -/
def newBucketIdx (sk addrGrp srcGrp : Nat) : Fin newBucketCount :=
  ⟨(sk + 7 * addrGrp + 13 * srcGrp) % newBucketCount, Nat.mod_lt _ (by decide)⟩

/-- Modelled from the spec (§4.1): Tried-table bucket index, a deterministic
keyed hash over (secret, address group) only. -/
def triedBucketIdx (sk addrGrp : Nat) : Fin triedBucketCount :=
  ⟨(sk + 11 * addrGrp) % triedBucketCount, Nat.mod_lt _ (by decide)⟩

/-- Address-validity filter (§6): loopback/reserved IP, zero port and the
zero address are silently dropped. -/
def validAddress (na : NetAddress) : Bool :=
  (na.port != 0) && (na.ip != 0) && (na.ip / 16777216 != 127)

/-- Terrible predicate (§4.2): claimed timestamp implausibly far in the
future; never-successful and stale; attempts over the retry ceiling without
an intervening success; or the most recent attempt still inside an active
back-off window after a failure. -/
def terrible (ka : KnownAddress) (nowTs : Int) : Bool :=
  decide (nowTs + futureSlack < ka.na.timestamp) ||
  (decide (ka.lastSuccess = 0) && decide (staleSeconds < nowTs - ka.na.timestamp)) ||
  (decide (retryCeiling < ka.attempts) && decide (ka.lastSuccess ≤ ka.lastAttempt)) ||
  (decide (0 < ka.lastAttempt) && decide (ka.lastSuccess < ka.lastAttempt) &&
    decide (nowTs - ka.lastAttempt < backoffSeconds))

/-- Eviction ranking (§4.3): worse means older last success, then more
attempts, then older advertised timestamp. -/
def worseThan (a b : KnownAddress) : Bool :=
  if a.lastSuccess = b.lastSuccess then
    if a.attempts = b.attempts then decide (a.na.timestamp ≤ b.na.timestamp)
    else decide (b.attempts < a.attempts)
  else decide (a.lastSuccess < b.lastSuccess)

/-- First-match association-list lookup on the address index. -/
def findKA : List (AddrKey × KnownAddress) → AddrKey → Option KnownAddress
  | [], _ => none
  | p :: t, k => if p.1 = k then some p.2 else findKA t k

/-- Replace the binding of `k` (first occurrence), or append it when absent. -/
def setKA : List (AddrKey × KnownAddress) → AddrKey → KnownAddress →
    List (AddrKey × KnownAddress)
  | [], k, ka => [(k, ka)]
  | p :: t, k, ka => if p.1 = k then (k, ka) :: t else p :: setKA t k ka

/-- Remove every binding of `k`. -/
def delKA (idx : List (AddrKey × KnownAddress)) (k : AddrKey) :
    List (AddrKey × KnownAddress) :=
  idx.filter (fun p => p.1 ≠ k)

/-- Case split of `decRef` on the looked-up record. -/
def decRefAux (idx : List (AddrKey × KnownAddress)) (k : AddrKey) :
    Option KnownAddress → List (AddrKey × KnownAddress)
  | none => idx
  | some ka =>
      if ka.refs ≤ 1 then delKA idx k
      else setKA idx k { ka with refs := ka.refs - 1 }

/-- Drop one New-bucket reference of `k` (§4.3): full discard of the record
happens only when its last reference is removed. -/
def decRef (idx : List (AddrKey × KnownAddress)) (k : AddrKey) :
    List (AddrKey × KnownAddress) :=
  decRefAux idx k (findKA idx k)

/-- Is the occupant behind key `k` Terrible now?  Unresolvable keys count as
Terrible (strictly worse than any legitimate occupant). -/
def keyTerrible (look : AddrKey → Option KnownAddress) (nowTs : Int) (k : AddrKey) : Bool :=
  match look k with
  | some ka => terrible ka nowTs
  | none => true

/-- The worse of two occupants under the ranking of §4.3. -/
def worseKey (look : AddrKey → Option KnownAddress) (a b : AddrKey) : AddrKey :=
  match look a, look b with
  | some ka, some kb => if worseThan ka kb then a else b
  | none, _ => a
  | some _, none => b

/-- One tournament round (§4.3): sample two random occupants, keep the worse
of them, and keep the worse of that and the current candidate. -/
def tournamentStep (look : AddrKey → Option KnownAddress) (bucket : List AddrKey)
    (dflt cur : AddrKey) (r : Nat × Nat) : AddrKey :=
  worseKey look cur
    (worseKey look (bucket.getD (r.1 % bucket.length) dflt)
      (bucket.getD (r.2 % bucket.length) dflt))

/-- Eviction-victim choice (§4.3): a Terrible occupant is evicted
unconditionally; otherwise tournament selection over a bounded number of
random rounds picks the final worst. -/
def pickVictim (look : AddrKey → Option KnownAddress) (nowTs : Int)
    (rnds : List (Nat × Nat)) (bucket : List AddrKey) : Option AddrKey :=
  match bucket with
  | [] => none
  | h :: t =>
    match (h :: t).find? (keyTerrible look nowTs) with
    | some v => some v
    | none =>
        some ((rnds.take tournamentRounds).foldl (tournamentStep look (h :: t) h) h)

/-- Outcome of a bucket insertion. -/
inductive InsOutcome where
  | present
  | inserted
  | evicted (v : AddrKey)
  | rejected
deriving DecidableEq

/-- Insert key `k` into a fixed-capacity bucket (§4.3): a key already present
is left alone; a bucket with room takes the key; a full bucket evicts the
victim picked by `victimOf`; with no victim the newcomer is rejected. -/
def bucketInsert (victimOf : List AddrKey → Option AddrKey)
    (bucket : List AddrKey) (k : AddrKey) : List AddrKey × InsOutcome :=
  if k ∈ bucket then (bucket, InsOutcome.present)
  else if bucket.length < bucketSize then (k :: bucket, InsOutcome.inserted)
  else
    match victimOf bucket with
    | some v => (k :: bucket.erase v, InsOutcome.evicted v)
    | none => (bucket, InsOutcome.rejected)

/-- Point update of a bucket table. -/
def updBucket {n : Nat} (f : Fin n → List AddrKey) (i : Fin n) (b : List AddrKey) :
    Fin n → List AddrKey :=
  fun j => if j = i then b else f j

/-- The Address Manager state (§2): the address index keyed by (IP, port),
the New and Tried bucket tables, and the per-instance secret key. -/
structure AddrManager where
  addrIndex : List (AddrKey × KnownAddress)
  addrNew : Fin newBucketCount → List AddrKey
  addrTried : Fin triedBucketCount → List AddrKey
  secretKey : Nat

/-- A freshly created `KnownAddress` (§4.2 Discover): no attempts, no
successes, not tried, one New-bucket reference. -/
def mkKnownAddress (na src : NetAddress) : KnownAddress :=
  { na := na, srcAddr := src, attempts := 0, lastAttempt := 0, lastSuccess := 0,
    tried := false, refs := 1 }

/-- Refresh of an already-known New record (§4.2): only the advertised
timestamp and services are updated. -/
def refreshKA (ka : KnownAddress) (na : NetAddress) : KnownAddress :=
  { ka with na := { ka.na with timestamp := na.timestamp, services := na.services } }

/-- Apply the result of a New-bucket insertion for an already-known New
address that is gaining one more bucket reference (§4.2 Discover):
the reference count rises only when the key actually entered the bucket,
and a displaced occupant loses one reference. -/
def knownApply (am : AddrManager) (k : AddrKey) (b : Fin newBucketCount)
    (ka1 : KnownAddress) : List AddrKey × InsOutcome → AddrManager
  | (b', InsOutcome.inserted) =>
      { am with addrIndex := (setKA am.addrIndex k { ka1 with refs := ka1.refs + 1 }),
                addrNew := updBucket am.addrNew b b' }
  | (b', InsOutcome.evicted v) =>
      { am with addrIndex := decRef (setKA am.addrIndex k { ka1 with refs := ka1.refs + 1 }) v,
                addrNew := updBucket am.addrNew b b' }
  | (_, InsOutcome.present) => { am with addrIndex := (setKA am.addrIndex k ka1) }
  | (_, InsOutcome.rejected) => { am with addrIndex := (setKA am.addrIndex k ka1) }

/-- Apply the result of the canonical New-bucket insertion for an unseen
address (§4.2 Discover): the new record is stored and a displaced occupant
loses the one reference being displaced. -/
def unseenApply (am : AddrManager) (k : AddrKey) (b : Fin newBucketCount)
    (ka0 : KnownAddress) : List AddrKey × InsOutcome → AddrManager
  | (b', InsOutcome.evicted v) =>
      { am with addrIndex := decRef ((k, ka0) :: am.addrIndex) v,
                addrNew := updBucket am.addrNew b b' }
  | (b', InsOutcome.inserted) =>
      { am with addrIndex := (k, ka0) :: am.addrIndex,
                addrNew := updBucket am.addrNew b b' }
  | (b', InsOutcome.present) =>
      { am with addrIndex := (k, ka0) :: am.addrIndex,
                addrNew := updBucket am.addrNew b b' }
  | (b', InsOutcome.rejected) =>
      { am with addrIndex := (k, ka0) :: am.addrIndex,
                addrNew := updBucket am.addrNew b b' }

/-- Dispatch of one discovery report on the looked-up record (§4.2). -/
def addApply (am : AddrManager) (na src : NetAddress) (extra : Bool)
    (rnds : List (Nat × Nat)) (nowTs : Int) : Option KnownAddress → AddrManager
  | some ka =>
      if ka.tried then am
      else if extra && decide ((refreshKA ka na).refs < refCap) then
        knownApply am (keyOf na) (newBucketIdx am.secretKey (groupOf na) (groupOf src))
          (refreshKA ka na)
          (bucketInsert (pickVictim (findKA am.addrIndex) nowTs rnds)
            (am.addrNew (newBucketIdx am.secretKey (groupOf na) (groupOf src))) (keyOf na))
      else { am with addrIndex := (setKA am.addrIndex (keyOf na) (refreshKA ka na)) }
  | none =>
      unseenApply am (keyOf na) (newBucketIdx am.secretKey (groupOf na) (groupOf src))
        (mkKnownAddress na src)
        (bucketInsert (pickVictim (findKA am.addrIndex) nowTs rnds)
          (am.addrNew (newBucketIdx am.secretKey (groupOf na) (groupOf src))) (keyOf na))

/-- Modelled from the spec (§4.2 Discover): ingest one reported address.
Invalid addresses are dropped; Tried addresses ignore the report; a known New
address gets its metadata refreshed and, when the `extra` oracle says so and
the reference cap allows, one more bucket reference; an unseen address is
created and inserted into its canonical New bucket, evicting per §4.3 when
the bucket is full (the displaced occupant loses only that one reference). -/
def addAddress (am : AddrManager) (na src : NetAddress) (extra : Bool)
    (rnds : List (Nat × Nat)) (nowTs : Int) : AddrManager :=
  if validAddress na = false then am
  else addApply am na src extra rnds nowTs (findKA am.addrIndex (keyOf na))

/-- Modelled from the spec (§6): bulk discovery ingestion. -/
def addAddresses (am : AddrManager) (addrs : List NetAddress) (src : NetAddress)
    (extra : Bool) (rnds : List (Nat × Nat)) (nowTs : Int) : AddrManager :=
  addrs.foldl (fun a na => addAddress a na src extra rnds nowTs) am

/-- Attempt bookkeeping applied to the looked-up record (§4.2 Attempt). -/
def markAttemptApply (am : AddrManager) (k : AddrKey) (nowTs : Int) :
    Option KnownAddress → AddrManager
  | none => am
  | some ka =>
      { am with addrIndex := (setKA am.addrIndex k
          { ka with attempts := ka.attempts + 1, lastAttempt := nowTs }) }

/-- Modelled from the spec (§4.2 Attempt): increment `attempts`, set
`lastAttempt`; a no-op for untracked addresses. -/
def markAttempt (am : AddrManager) (k : AddrKey) (nowTs : Int) : AddrManager :=
  markAttemptApply am k nowTs (findKA am.addrIndex k)

/-- Demotion of a Tried-table eviction victim into the New table (§4.3),
applied to the looked-up record: reinserted with a single reference when its
canonical New bucket has a free slot, discarded from the index otherwise. -/
def demoteApply (am : AddrManager) (v : AddrKey) : Option KnownAddress → AddrManager
  | none => am
  | some kv =>
      if v ∈ am.addrNew (newBucketIdx am.secretKey (groupOf kv.na) (groupOf kv.srcAddr)) then
        { am with addrIndex := (setKA am.addrIndex v { kv with tried := false, refs := 1 }) }
      else if (am.addrNew (newBucketIdx am.secretKey (groupOf kv.na) (groupOf kv.srcAddr))).length
          < bucketSize then
        { am with addrIndex := (setKA am.addrIndex v { kv with tried := false, refs := 1 }),
                  addrNew := updBucket am.addrNew
                    (newBucketIdx am.secretKey (groupOf kv.na) (groupOf kv.srcAddr))
                    (v :: am.addrNew (newBucketIdx am.secretKey (groupOf kv.na) (groupOf kv.srcAddr))) }
      else { am with addrIndex := delKA am.addrIndex v }

/-- Demotion of a Tried-table eviction victim (§4.3). -/
def demote (am : AddrManager) (v : AddrKey) : AddrManager :=
  demoteApply am v (findKA am.addrIndex v)

/-- Apply the result of the Tried-bucket insertion of a promotion (§4.2
Success): on eviction the displaced occupant is demoted per §4.3. -/
def triedInsertApply (am : AddrManager) (tb : Fin triedBucketCount) :
    List AddrKey × InsOutcome → AddrManager
  | (b', InsOutcome.evicted v) => demote { am with addrTried := updBucket am.addrTried tb b' } v
  | (b', InsOutcome.inserted) => { am with addrTried := updBucket am.addrTried tb b' }
  | (b', InsOutcome.present) => { am with addrTried := updBucket am.addrTried tb b' }
  | (b', InsOutcome.rejected) => { am with addrTried := updBucket am.addrTried tb b' }

/-- Insert an already-promoted key into its Tried bucket (§4.2 Success). -/
def promote (am1 : AddrManager) (k : AddrKey) (tb : Fin triedBucketCount)
    (nowTs : Int) (rnds : List (Nat × Nat)) : AddrManager :=
  triedInsertApply am1 tb
    (bucketInsert (pickVictim (findKA am1.addrIndex) nowTs rnds) (am1.addrTried tb) k)

/-- Dispatch of one success report on the looked-up record (§4.2 Success). -/
def markGoodApply (am : AddrManager) (k : AddrKey) (nowTs : Int)
    (rnds : List (Nat × Nat)) : Option KnownAddress → AddrManager
  | none => am
  | some ka =>
      if ka.tried then
        { am with addrIndex := (setKA am.addrIndex k
            { ka with attempts := 0, lastSuccess := nowTs }) }
      else
        promote
          { addrIndex := (setKA am.addrIndex k
              { ka with tried := true, refs := 0, attempts := 0, lastSuccess := nowTs }),
            addrNew := fun i => (am.addrNew i).filter (fun x => x ≠ k),
            addrTried := am.addrTried, secretKey := am.secretKey }
          k (triedBucketIdx am.secretKey (groupOf ka.na)) nowTs rnds

/-- Modelled from the spec (§4.2 Success): promote a New address — remove it
from every New bucket (refCount to 0), reset `attempts`, set `lastSuccess`,
and insert it into its Tried bucket.  A full Tried bucket evicts per §4.3 and
the evicted occupant is demoted back into the New table when a slot is free
there, discarded otherwise.  A no-op for untracked addresses; an already
Tried address only refreshes its metadata. -/
def markGood (am : AddrManager) (k : AddrKey) (nowTs : Int)
    (rnds : List (Nat × Nat)) : AddrManager :=
  markGoodApply am k nowTs rnds (findKA am.addrIndex k)

/-- One selection probe (§4.4): accept the candidate when it is stored,
non-Terrible and not excluded, otherwise fall through to `next`. -/
def getAddressStep (nowTs : Int) (excl : List AddrKey) (p : AddrKey)
    (next : Option (AddrKey × KnownAddress)) :
    Option KnownAddress → Option (AddrKey × KnownAddress)
  | some ka =>
      if terrible ka nowTs = false ∧ p ∉ excl then some (p, ka) else next
  | none => next

/-- Scan the sampled candidate sequence for the first stored, non-Terrible,
non-excluded address. -/
def getAddressLoop (am : AddrManager) (nowTs : Int) (excl : List AddrKey) :
    List AddrKey → Option (AddrKey × KnownAddress)
  | [] => none
  | p :: rest =>
      getAddressStep nowTs excl p (getAddressLoop am nowTs excl rest)
        (findKA am.addrIndex p)

/-- Modelled from the spec (§4.4): connection-candidate selection.  The
weighted random sampling (Tried favored over New) is abstracted into the
`picks` oracle; the loop re-samples on a Terrible or excluded hit up to
`retryLimit` candidates before signaling "no candidate". -/
def getAddress (am : AddrManager) (nowTs : Int) (excl : List AddrKey)
    (picks : List AddrKey) : Option (AddrKey × KnownAddress) :=
  getAddressLoop am nowTs excl (picks.take retryLimit)

/-- Total number of stored addresses (`NumAddresses`). -/
def numAddresses (am : AddrManager) : Nat := am.addrIndex.length

/-- The discovery-response cap (§4.4):
`min(requested, max(fixedFloor, fraction · totalKnown))`. -/
def getAddrCap (am : AddrManager) (n : Nat) : Nat :=
  min n (max addrFloor (addrPercent * numAddresses am / 100))

/-- Discovery-response candidate filter (§4.4): keep a stored, non-Terrible
address, drop everything else. -/
def candApply (p : AddrKey) (nowTs : Int) :
    Option KnownAddress → Option (AddrKey × KnownAddress)
  | some ka => if terrible ka nowTs = false then some (p, ka) else none
  | none => none

/-- Modelled from the spec (§4.4): discovery-response selection.  The random
shuffle is abstracted into the `order` oracle; Terrible and unknown keys are
excluded and the result is capped by `getAddrCap`. -/
def getAddresses (am : AddrManager) (nowTs : Int) (n : Nat)
    (order : List AddrKey) : List (AddrKey × KnownAddress) :=
  (order.filterMap (fun p => candApply p nowTs (findKA am.addrIndex p))).take
    (getAddrCap am n)

/-- Persisted form of a `KnownAddress` (§6): the NetAddress together with
source, attempts, lastAttempt, lastSuccess and the tried flag. -/
structure SerialKA where
  na : NetAddress
  srcAddr : NetAddress
  attempts : Nat
  lastAttempt : Int
  lastSuccess : Int
  tried : Bool
deriving DecidableEq

/-- The durable record (§6): format version, the secret key, and the address
list with metadata. -/
structure SerializedState where
  version : Nat
  secretKey : Nat
  entries : List (AddrKey × SerialKA)
deriving DecidableEq

/-- Project a stored record to its persisted metadata. -/
def saveKA (ka : KnownAddress) : SerialKA :=
  { na := ka.na, srcAddr := ka.srcAddr, attempts := ka.attempts,
    lastAttempt := ka.lastAttempt, lastSuccess := ka.lastSuccess, tried := ka.tried }

/-- Rebuild a stored record from its persisted metadata; the reference count
is recomputed from the tried flag. -/
def loadKA (s : SerialKA) : KnownAddress :=
  { na := s.na, srcAddr := s.srcAddr, attempts := s.attempts,
    lastAttempt := s.lastAttempt, lastSuccess := s.lastSuccess, tried := s.tried,
    refs := if s.tried then 0 else 1 }

/-- Modelled from the spec (§4.5): serialize the entire state. -/
def serialize (am : AddrManager) : SerializedState :=
  { version := serialVersion, secretKey := am.secretKey,
    entries := am.addrIndex.map (fun p => (p.1, saveKA p.2)) }

/-- Replay one persisted entry into the recomputed bucket tables. -/
def placeEntry (sk : Nat)
    (tbls : (Fin newBucketCount → List AddrKey) × (Fin triedBucketCount → List AddrKey))
    (p : AddrKey × SerialKA) :
    (Fin newBucketCount → List AddrKey) × (Fin triedBucketCount → List AddrKey) :=
  if p.2.tried then
    let j := triedBucketIdx sk (groupOf p.2.na)
    if p.1 ∉ tbls.2 j ∧ (tbls.2 j).length < bucketSize then
      (tbls.1, updBucket tbls.2 j (p.1 :: tbls.2 j))
    else tbls
  else
    let i := newBucketIdx sk (groupOf p.2.na) (groupOf p.2.srcAddr)
    if p.1 ∉ tbls.1 i ∧ (tbls.1 i).length < bucketSize then
      (updBucket tbls.1 i (p.1 :: tbls.1 i), tbls.2)
    else tbls

/-- Modelled from the spec (§4.5, §7): load a persisted record.  A
version-mismatched record is treated as absent: the manager starts empty
with a freshly generated secret (`fresh`).  Otherwise the address list is
restored and every bucket placement is recomputed from the persisted
secret key. -/
def deserialize (rec : SerializedState) (fresh : Nat) : AddrManager :=
  if rec.version = serialVersion then
    { addrIndex := rec.entries.map (fun p => (p.1, loadKA p.2)),
      addrNew := (rec.entries.foldl (placeEntry rec.secretKey)
        (fun _ => [], fun _ => [])).1,
      addrTried := (rec.entries.foldl (placeEntry rec.secretKey)
        (fun _ => [], fun _ => [])).2,
      secretKey := rec.secretKey }
  else
    { addrIndex := [], addrNew := fun _ => [], addrTried := fun _ => [],
      secretKey := fresh }

/-- New state of a record (§3): not tried, at least one reference. -/
def kaNew (ka : KnownAddress) : Prop := ka.tried = false ∧ 1 ≤ ka.refs

/-- Tried state of a record (§3): tried, zero references. -/
def kaTried (ka : KnownAddress) : Prop := ka.tried = true ∧ ka.refs = 0

/-- Orphaned state of a record (§3): not tried, zero references. -/
def kaOrphaned (ka : KnownAddress) : Prop := ka.tried = false ∧ ka.refs = 0

instance (ka : KnownAddress) : Decidable (kaNew ka) := by unfold kaNew; infer_instance
instance (ka : KnownAddress) : Decidable (kaTried ka) := by unfold kaTried; infer_instance
instance (ka : KnownAddress) : Decidable (kaOrphaned ka) := by unfold kaOrphaned; infer_instance

/-- Exactly one of the three record states holds (§3 invariant). -/
def exactlyOneState (ka : KnownAddress) : Prop :=
  (kaNew ka ∧ ¬ kaTried ka ∧ ¬ kaOrphaned ka) ∨
  (¬ kaNew ka ∧ kaTried ka ∧ ¬ kaOrphaned ka) ∨
  (¬ kaNew ka ∧ ¬ kaTried ka ∧ kaOrphaned ka)

instance (ka : KnownAddress) : Decidable (exactlyOneState ka) := by
  unfold exactlyOneState; infer_instance

/-- The three-state invariant over a whole manager state. -/
def statesOk (am : AddrManager) : Prop :=
  ∀ p ∈ am.addrIndex, exactlyOneState p.2

/-- The bucket-capacity invariant over a whole manager state. -/
def capsOk (am : AddrManager) : Prop :=
  (∀ i, (am.addrNew i).length ≤ bucketSize) ∧
  (∀ j, (am.addrTried j).length ≤ bucketSize)

/-- Key-uniqueness of the address index (§3: duplicates are never stored). -/
def nodupKeys (am : AddrManager) : Prop :=
  (am.addrIndex.map Prod.fst).Nodup

/-- Core form of the three-state invariant on a raw index: a tried record
always has zero references. -/
def idxOk (idx : List (AddrKey × KnownAddress)) : Prop :=
  ∀ p ∈ idx, p.2.tried = true → p.2.refs = 0

/-- The empty manager (startup with no persisted record, §7). -/
def emptyManager (sk : Nat) : AddrManager :=
  { addrIndex := [], addrNew := fun _ => [], addrTried := fun _ => [],
    secretKey := sk }

/-- Concrete routable address fixture. -/
def na0 : NetAddress := { ip := 167837954, port := 8333, timestamp := 100, services := 1 }

/-- Concrete reporting-source fixture. -/
def src0 : NetAddress := { ip := 3232235777, port := 9999, timestamp := 50, services := 0 }

/-- Concrete empty persisted record fixture. -/
def rec0 : SerializedState := { version := 1, secretKey := 7, entries := [] }

/-- A full bucket fixture: 64 distinct keys. -/
def fullBucket : List AddrKey := (List.range 64).map (fun i => (i + 1, 1))

/-- A one-address manager fixture: `na0` stored as a New-only record. -/
def oneAddrManager : AddrManager :=
  { addrIndex := [(keyOf na0, mkKnownAddress na0 src0)],
    addrNew := updBucket (fun _ => []) (newBucketIdx 7 (groupOf na0) (groupOf src0))
      [keyOf na0],
    addrTried := fun _ => [], secretKey := 7 }

end AddrMgr

namespace Chaincfg

/-- Concrete parameter fixture (the MainNet address-encoding magics). -/
def sampleParams : ChainParams :=
  { net := 5, pubKeyHashAddrID := 76, scriptHashAddrID := 16,
    hdPrivateKeyID := ⟨4, 136, 173, 228⟩, hdPublicKeyID := ⟨4, 136, 178, 30⟩ }

/-- Registration state with no networks registered. -/
def emptyRegState : RegState :=
  { registeredNets := [], pubKeyHashAddrIDs := [], scriptHashAddrIDs := [],
    hdPrivToPubKeyIDs := [] }

/-- Registration state in which `sampleParams.net` is already registered. -/
def dupRegState : RegState :=
  { registeredNets := [5], pubKeyHashAddrIDs := [76], scriptHashAddrIDs := [16],
    hdPrivToPubKeyIDs := [(⟨4, 136, 173, 228⟩, [4, 136, 178, 30])] }

end Chaincfg

namespace AddrMgr

theorem findKA_mem {idx : List (AddrKey × KnownAddress)} {k : AddrKey}
    {ka : KnownAddress} (h : findKA idx k = some ka) : (k, ka) ∈ idx := by
  induction idx with
  | nil => simp [findKA] at h
  | cons p t ih =>
      rw [findKA] at h
      by_cases hp : p.1 = k
      · rw [if_pos hp] at h
        have hp2 : (k, ka) = p := by
          obtain ⟨p1, p2⟩ := p
          injection h with h2
          simp only at hp h2
          rw [hp, h2]
        exact List.mem_cons.mpr (Or.inl hp2)
      · rw [if_neg hp] at h
        exact List.mem_cons_of_mem _ (ih h)

theorem findKA_eq_none {idx : List (AddrKey × KnownAddress)} {k : AddrKey}
    (h : findKA idx k = none) : k ∉ idx.map Prod.fst := by
  induction idx with
  | nil => simp
  | cons p t ih =>
      rw [findKA] at h
      by_cases hp : p.1 = k
      · rw [if_pos hp] at h; cases h
      · rw [if_neg hp] at h
        simp only [List.map_cons, List.mem_cons]
        rintro (rfl | hmem)
        · exact hp rfl
        · exact ih h hmem

theorem mem_setKA {idx : List (AddrKey × KnownAddress)} {k : AddrKey}
    {ka : KnownAddress} {p : AddrKey × KnownAddress}
    (h : p ∈ setKA idx k ka) : p = (k, ka) ∨ p ∈ idx := by
  induction idx with
  | nil => simpa [setKA] using h
  | cons q t ih =>
      rw [setKA] at h
      by_cases hq : q.1 = k
      · rw [if_pos hq] at h
        rcases List.mem_cons.mp h with h1 | h1
        · exact Or.inl h1
        · exact Or.inr (List.mem_cons_of_mem _ h1)
      · rw [if_neg hq] at h
        rcases List.mem_cons.mp h with h1 | h1
        · exact Or.inr (h1 ▸ List.mem_cons_self _ _)
        · rcases ih h1 with h2 | h2
          · exact Or.inl h2
          · exact Or.inr (List.mem_cons_of_mem _ h2)

theorem findKA_setKA_self (idx : List (AddrKey × KnownAddress)) (k : AddrKey)
    (ka : KnownAddress) : findKA (setKA idx k ka) k = some ka := by
  induction idx with
  | nil => simp [setKA, findKA]
  | cons q t ih =>
      rw [setKA]
      by_cases hq : q.1 = k
      · rw [if_pos hq, findKA, if_pos rfl]
      · rw [if_neg hq, findKA, if_neg hq, ih]

theorem findKA_setKA_ne (idx : List (AddrKey × KnownAddress)) (k k' : AddrKey)
    (ka : KnownAddress) (h : k' ≠ k) :
    findKA (setKA idx k ka) k' = findKA idx k' := by
  induction idx with
  | nil => simp [setKA, findKA, Ne.symm h]
  | cons q t ih =>
      rw [setKA]
      by_cases hq : q.1 = k
      · have h1 : ¬((k, ka).1 = k') := fun hh => h hh.symm
        have h2 : ¬(q.1 = k') := by
          rw [hq]; exact fun hh => h hh.symm
        rw [if_pos hq, findKA, findKA, if_neg h1, if_neg h2]
      · rw [if_neg hq, findKA, findKA]
        by_cases hq' : q.1 = k'
        · rw [if_pos hq', if_pos hq']
        · rw [if_neg hq', if_neg hq', ih]

theorem setKA_self {idx : List (AddrKey × KnownAddress)} {k : AddrKey}
    {ka : KnownAddress} (h : findKA idx k = some ka) : setKA idx k ka = idx := by
  induction idx with
  | nil => simp [findKA] at h
  | cons q t ih =>
      rw [findKA] at h
      rw [setKA]
      by_cases hq : q.1 = k
      · rw [if_pos hq] at h
        rw [if_pos hq]
        cases h
        cases q
        simp_all
      · rw [if_neg hq] at h
        rw [if_neg hq, ih h]

theorem mem_delKA {idx : List (AddrKey × KnownAddress)} {k : AddrKey}
    {p : AddrKey × KnownAddress} (h : p ∈ delKA idx k) : p ∈ idx :=
  List.mem_of_mem_filter h

theorem findKA_delKA_ne (idx : List (AddrKey × KnownAddress)) (k k' : AddrKey)
    (h : k' ≠ k) : findKA (delKA idx k) k' = findKA idx k' := by
  induction idx with
  | nil => simp [delKA, findKA]
  | cons q t ih =>
      rw [delKA, List.filter]
      by_cases hq : q.1 = k
      · have : (decide (q.1 ≠ k)) = false := by simp [hq]
        rw [this, findKA, if_neg (by rw [hq]; exact fun hh => h hh.symm)]
        exact ih
      · have : (decide (q.1 ≠ k)) = true := by simp [hq]
        rw [this, findKA, findKA]
        by_cases hq' : q.1 = k'
        · rw [if_pos hq', if_pos hq']
        · rw [if_neg hq', if_neg hq']
          exact ih

theorem mem_decRef {idx : List (AddrKey × KnownAddress)} {v : AddrKey}
    {p : AddrKey × KnownAddress} (h : p ∈ decRef idx v) :
    p ∈ idx ∨ ∃ ka, findKA idx v = some ka ∧ p = (v, { ka with refs := ka.refs - 1 }) := by
  rw [decRef] at h
  cases hf : findKA idx v with
  | none => rw [hf, decRefAux] at h; exact Or.inl h
  | some ka =>
      rw [hf, decRefAux] at h
      by_cases hr : ka.refs ≤ 1
      · rw [if_pos hr] at h
        exact Or.inl (mem_delKA h)
      · rw [if_neg hr] at h
        rcases mem_setKA h with h1 | h1
        · exact Or.inr ⟨ka, rfl, h1⟩
        · exact Or.inl h1

theorem findKA_decRef_ne (idx : List (AddrKey × KnownAddress)) (v k' : AddrKey)
    (h : k' ≠ v) : findKA (decRef idx v) k' = findKA idx k' := by
  rw [decRef]
  cases hf : findKA idx v with
  | none => rw [decRefAux]
  | some ka =>
      rw [decRefAux]
      by_cases hr : ka.refs ≤ 1
      · rw [if_pos hr]
        exact findKA_delKA_ne idx v k' h
      · rw [if_neg hr]
        exact findKA_setKA_ne idx v k' _ h

theorem findKA_cons_ne (idx : List (AddrKey × KnownAddress)) (q : AddrKey × KnownAddress)
    (k' : AddrKey) (h : q.1 ≠ k') : findKA (q :: idx) k' = findKA idx k' := by
  rw [findKA, if_neg h]

theorem exactlyOneState_iff (ka : KnownAddress) :
    exactlyOneState ka ↔ (ka.tried = true → ka.refs = 0) := by
  unfold exactlyOneState kaNew kaTried kaOrphaned
  cases h : ka.tried <;> rcases Nat.eq_zero_or_pos ka.refs with h2 | h2 <;>
    simp [h, h2, Nat.pos_iff_ne_zero] at * <;> omega

theorem idxOk_setKA {idx : List (AddrKey × KnownAddress)} {k : AddrKey}
    {ka : KnownAddress} (hi : idxOk idx) (hka : ka.tried = true → ka.refs = 0) :
    idxOk (setKA idx k ka) := by
  intro p hp
  rcases mem_setKA hp with h1 | h1
  · rw [h1]; exact hka
  · exact hi p h1

theorem idxOk_delKA {idx : List (AddrKey × KnownAddress)} {k : AddrKey}
    (hi : idxOk idx) : idxOk (delKA idx k) :=
  fun p hp => hi p (mem_delKA hp)

theorem idxOk_cons {idx : List (AddrKey × KnownAddress)} {k : AddrKey}
    {ka : KnownAddress} (hi : idxOk idx) (hka : ka.tried = true → ka.refs = 0) :
    idxOk ((k, ka) :: idx) := by
  intro p hp
  rcases List.mem_cons.mp hp with h1 | h1
  · rw [h1]; exact hka
  · exact hi p h1

theorem idxOk_decRef {idx : List (AddrKey × KnownAddress)} {v : AddrKey}
    (hi : idxOk idx) : idxOk (decRef idx v) := by
  intro p hp
  rcases mem_decRef hp with h1 | ⟨ka, hf, h1⟩
  · exact hi p h1
  · rw [h1]
    intro ht
    have h0 : ka.refs = 0 := hi (v, ka) (findKA_mem hf) ht
    show ka.refs - 1 = 0
    omega

theorem getD_mod_mem (l : List AddrKey) (r : Nat) (d : AddrKey) (h : l ≠ []) :
    l.getD (r % l.length) d ∈ l := by
  have hlen : 0 < l.length := List.length_pos.mpr h
  have hlt : r % l.length < l.length := Nat.mod_lt _ hlen
  rw [List.getD_eq_getElem l d hlt]
  exact List.getElem_mem hlt

theorem worseKey_or (look : AddrKey → Option KnownAddress) (a b : AddrKey) :
    worseKey look a b = a ∨ worseKey look a b = b := by
  unfold worseKey
  cases look a with
  | none => cases look b <;> exact Or.inl rfl
  | some ka =>
      cases look b with
      | none => exact Or.inr rfl
      | some kb =>
          show (if worseThan ka kb = true then a else b) = a ∨
            (if worseThan ka kb = true then a else b) = b
          by_cases h : worseThan ka kb
          · rw [if_pos h]; exact Or.inl rfl
          · rw [if_neg h]; exact Or.inr rfl

theorem tournamentStep_mem (look : AddrKey → Option KnownAddress)
    (bucket : List AddrKey) (dflt cur : AddrKey) (r : Nat × Nat)
    (hb : bucket ≠ []) (hd : dflt ∈ bucket) (hc : cur ∈ bucket) :
    tournamentStep look bucket dflt cur r ∈ bucket := by
  unfold tournamentStep
  have h1 := getD_mod_mem bucket r.1 dflt hb
  have h2 := getD_mod_mem bucket r.2 dflt hb
  have hinner := worseKey_or look (bucket.getD (r.1 % bucket.length) dflt)
    (bucket.getD (r.2 % bucket.length) dflt)
  rcases worseKey_or look cur (worseKey look (bucket.getD (r.1 % bucket.length) dflt)
      (bucket.getD (r.2 % bucket.length) dflt)) with h | h <;> rw [h]
  · exact hc
  · rcases hinner with h' | h' <;> rw [h']
    · exact h1
    · exact h2

theorem foldl_tournament_mem (look : AddrKey → Option KnownAddress)
    (bucket : List AddrKey) (dflt : AddrKey) (hb : bucket ≠ []) (hd : dflt ∈ bucket) :
    ∀ (rs : List (Nat × Nat)) (cur : AddrKey), cur ∈ bucket →
      rs.foldl (tournamentStep look bucket dflt) cur ∈ bucket := by
  intro rs
  induction rs with
  | nil => intro cur hc; simpa using hc
  | cons r t ih =>
      intro cur hc
      rw [List.foldl_cons]
      exact ih _ (tournamentStep_mem look bucket dflt cur r hb hd hc)

theorem pickVictim_mem {look : AddrKey → Option KnownAddress} {nowTs : Int}
    {rnds : List (Nat × Nat)} {bucket : List AddrKey} {v : AddrKey}
    (h : pickVictim look nowTs rnds bucket = some v) : v ∈ bucket := by
  cases bucket with
  | nil => simp [pickVictim] at h
  | cons hd t =>
      rw [pickVictim] at h
      cases hf : (hd :: t).find? (keyTerrible look nowTs) with
      | some w =>
          rw [hf] at h
          cases h
          exact List.mem_of_find?_eq_some hf
      | none =>
          rw [hf] at h
          cases h
          exact foldl_tournament_mem look (hd :: t) hd (by simp)
            (List.mem_cons_self _ _) _ hd (List.mem_cons_self _ _)

theorem pickVictim_ne_none {look : AddrKey → Option KnownAddress} {nowTs : Int}
    {rnds : List (Nat × Nat)} {bucket : List AddrKey} (h : bucket ≠ []) :
    pickVictim look nowTs rnds bucket ≠ none := by
  cases bucket with
  | nil => exact absurd rfl h
  | cons hd t =>
      rw [pickVictim]
      cases hf : (hd :: t).find? (keyTerrible look nowTs) <;> simp [hf]

theorem updBucket_same {n : Nat} (f : Fin n → List AddrKey) (i : Fin n)
    (b : List AddrKey) : updBucket f i b i = b := by
  simp [updBucket]

theorem updBucket_other {n : Nat} (f : Fin n → List AddrKey) (i j : Fin n)
    (b : List AddrKey) (h : j ≠ i) : updBucket f i b j = f j := by
  simp [updBucket, h]

theorem bucketInsert_length_le {victimOf : List AddrKey → Option AddrKey}
    {bucket : List AddrKey} {k : AddrKey}
    (hb : bucket.length ≤ bucketSize)
    (hv : ∀ v, victimOf bucket = some v → v ∈ bucket) :
    (bucketInsert victimOf bucket k).1.length ≤ bucketSize := by
  unfold bucketInsert
  by_cases hmem : k ∈ bucket
  · rw [if_pos hmem]; exact hb
  · rw [if_neg hmem]
    by_cases hlen : bucket.length < bucketSize
    · rw [if_pos hlen]
      simpa using hlen
    · rw [if_neg hlen]
      cases hvic : victimOf bucket with
      | none => exact hb
      | some v =>
          have hvmem : v ∈ bucket := hv v hvic
          have hple : 0 < bucket.length := List.length_pos.mpr
            (by rintro rfl; simp at hvmem)
          simp only [List.length_cons, List.length_erase_of_mem hvmem]
          omega

theorem bucketInsert_no_evict_of_not_full {victimOf : List AddrKey → Option AddrKey}
    {bucket : List AddrKey} {k : AddrKey} (hlen : bucket.length < bucketSize) :
    ∀ v, (bucketInsert victimOf bucket k).2 ≠ InsOutcome.evicted v := by
  intro v
  unfold bucketInsert
  by_cases hmem : k ∈ bucket
  · rw [if_pos hmem]; simp
  · rw [if_neg hmem, if_pos hlen]; simp

theorem tried_vac {ka : KnownAddress} (h : ka.tried = false) :
    ka.tried = true → ka.refs = 0 := by
  intro ht; rw [h] at ht; cases ht

theorem foldl_preserve {α : Type} {β : Type} (P : α → Prop) (f : α → β → α)
    (hstep : ∀ a x, P a → P (f a x)) :
    ∀ (l : List β) (a : α), P a → P (l.foldl f a) := by
  intro l
  induction l with
  | nil => intro a ha; simpa using ha
  | cons x t ih =>
      intro a ha
      rw [List.foldl_cons]
      exact ih _ (hstep a x ha)

theorem idxOk_knownApply {am : AddrManager} {k : AddrKey} {b : Fin newBucketCount}
    {ka1 : KnownAddress} (r : List AddrKey × InsOutcome)
    (h : idxOk am.addrIndex) (hka : ka1.tried = false) :
    idxOk (knownApply am k b ka1 r).addrIndex := by
  obtain ⟨b', o⟩ := r
  cases o with
  | present => exact idxOk_setKA h (tried_vac hka)
  | inserted => exact idxOk_setKA h (tried_vac hka)
  | evicted v => exact idxOk_decRef (idxOk_setKA h (tried_vac hka))
  | rejected => exact idxOk_setKA h (tried_vac hka)

theorem idxOk_unseenApply {am : AddrManager} {k : AddrKey} {b : Fin newBucketCount}
    {ka0 : KnownAddress} (r : List AddrKey × InsOutcome)
    (h : idxOk am.addrIndex) (hka : ka0.tried = false) :
    idxOk (unseenApply am k b ka0 r).addrIndex := by
  obtain ⟨b', o⟩ := r
  cases o with
  | present => exact idxOk_cons h (tried_vac hka)
  | inserted => exact idxOk_cons h (tried_vac hka)
  | evicted v => exact idxOk_decRef (idxOk_cons h (tried_vac hka))
  | rejected => exact idxOk_cons h (tried_vac hka)

theorem idxOk_addAddress (am : AddrManager) (na src : NetAddress) (extra : Bool)
    (rnds : List (Nat × Nat)) (nowTs : Int) (h : idxOk am.addrIndex) :
    idxOk (addAddress am na src extra rnds nowTs).addrIndex := by
  rw [addAddress]
  by_cases hva : validAddress na = false
  · rw [if_pos hva]; exact h
  · rw [if_neg hva]
    cases hf : findKA am.addrIndex (keyOf na) with
    | none =>
        rw [addApply]
        exact idxOk_unseenApply _ h rfl
    | some ka =>
        rw [addApply]
        by_cases ht : ka.tried
        · rw [if_pos ht]; exact h
        · rw [if_neg ht]
          have hka1 : (refreshKA ka na).tried = false := by
            show ka.tried = false
            exact Bool.not_eq_true _ ▸ (Bool.eq_false_iff.mpr ht)
          by_cases hx : (extra && decide ((refreshKA ka na).refs < refCap)) = true
          · rw [if_pos hx]
            exact idxOk_knownApply _ h hka1
          · rw [if_neg hx]
            exact idxOk_setKA h (tried_vac hka1)

theorem idxOk_markAttempt (am : AddrManager) (k : AddrKey) (nowTs : Int)
    (h : idxOk am.addrIndex) : idxOk (markAttempt am k nowTs).addrIndex := by
  rw [markAttempt]
  cases hf : findKA am.addrIndex k with
  | none => exact h
  | some ka =>
      rw [markAttemptApply]
      refine idxOk_setKA h ?_
      intro ht
      exact h (k, ka) (findKA_mem hf) ht

theorem idxOk_demote (am : AddrManager) (v : AddrKey) (h : idxOk am.addrIndex) :
    idxOk (demote am v).addrIndex := by
  rw [demote]
  cases hf : findKA am.addrIndex v with
  | none => exact h
  | some kv =>
      rw [demoteApply]
      by_cases h1 : v ∈ am.addrNew (newBucketIdx am.secretKey (groupOf kv.na) (groupOf kv.srcAddr))
      · rw [if_pos h1]
        exact idxOk_setKA h (tried_vac rfl)
      · rw [if_neg h1]
        by_cases h2 : (am.addrNew (newBucketIdx am.secretKey (groupOf kv.na)
            (groupOf kv.srcAddr))).length < bucketSize
        · rw [if_pos h2]
          exact idxOk_setKA h (tried_vac rfl)
        · rw [if_neg h2]
          exact idxOk_delKA h

theorem idxOk_triedInsertApply {am : AddrManager} {tb : Fin triedBucketCount}
    (r : List AddrKey × InsOutcome) (h : idxOk am.addrIndex) :
    idxOk (triedInsertApply am tb r).addrIndex := by
  obtain ⟨b', o⟩ := r
  cases o with
  | present => exact h
  | inserted => exact h
  | rejected => exact h
  | evicted v => exact idxOk_demote _ v h

theorem idxOk_promote (am1 : AddrManager) (k : AddrKey) (tb : Fin triedBucketCount)
    (nowTs : Int) (rnds : List (Nat × Nat)) (h : idxOk am1.addrIndex) :
    idxOk (promote am1 k tb nowTs rnds).addrIndex :=
  idxOk_triedInsertApply _ h

theorem idxOk_markGood (am : AddrManager) (k : AddrKey) (nowTs : Int)
    (rnds : List (Nat × Nat)) (h : idxOk am.addrIndex) :
    idxOk (markGood am k nowTs rnds).addrIndex := by
  rw [markGood]
  cases hf : findKA am.addrIndex k with
  | none => exact h
  | some ka =>
      rw [markGoodApply]
      by_cases ht : ka.tried
      · rw [if_pos ht]
        refine idxOk_setKA h ?_
        intro _
        exact h (k, ka) (findKA_mem hf) (by rw [ht])
      · rw [if_neg ht]
        exact idxOk_promote _ k _ nowTs rnds (idxOk_setKA h (fun _ => rfl))

theorem idxOk_deserialize (rec : SerializedState) (fresh : Nat) :
    idxOk (deserialize rec fresh).addrIndex := by
  rw [deserialize]
  by_cases hv : rec.version = serialVersion
  · rw [if_pos hv]
    intro p hp
    simp only [List.mem_map] at hp
    obtain ⟨q, _, rfl⟩ := hp
    intro ht
    have ht' : q.2.tried = true := ht
    show (if q.2.tried then 0 else 1) = 0
    rw [ht']
    rfl
  · rw [if_neg hv]
    intro p hp
    simp at hp

theorem statesOk_iff (am : AddrManager) : statesOk am ↔ idxOk am.addrIndex := by
  unfold statesOk idxOk
  constructor <;> intro h p hp
  · exact (exactlyOneState_iff p.2).mp (h p hp)
  · exact (exactlyOneState_iff p.2).mpr (h p hp)

theorem updBucket_caps {n : Nat} {f : Fin n → List AddrKey}
    (hf : ∀ i, (f i).length ≤ bucketSize) {b : Fin n} {l : List AddrKey}
    (hl : l.length ≤ bucketSize) : ∀ i, ((updBucket f b l) i).length ≤ bucketSize := by
  intro i
  by_cases hib : i = b
  · rw [hib, updBucket_same]; exact hl
  · rw [updBucket_other _ _ _ _ hib]; exact hf i

theorem capsOk_knownApply {am : AddrManager} {k : AddrKey} {b : Fin newBucketCount}
    {ka1 : KnownAddress} {r : List AddrKey × InsOutcome}
    (h : capsOk am) (hr : r.1.length ≤ bucketSize) :
    capsOk (knownApply am k b ka1 r) := by
  obtain ⟨b', o⟩ := r
  have hb' : b'.length ≤ bucketSize := hr
  cases o with
  | present => exact h
  | rejected => exact h
  | inserted => exact ⟨updBucket_caps h.1 hb', h.2⟩
  | evicted v => exact ⟨updBucket_caps h.1 hb', h.2⟩

theorem capsOk_unseenApply {am : AddrManager} {k : AddrKey} {b : Fin newBucketCount}
    {ka0 : KnownAddress} {r : List AddrKey × InsOutcome}
    (h : capsOk am) (hr : r.1.length ≤ bucketSize) :
    capsOk (unseenApply am k b ka0 r) := by
  obtain ⟨b', o⟩ := r
  have hb' : b'.length ≤ bucketSize := hr
  cases o with
  | present => exact ⟨updBucket_caps h.1 hb', h.2⟩
  | rejected => exact ⟨updBucket_caps h.1 hb', h.2⟩
  | inserted => exact ⟨updBucket_caps h.1 hb', h.2⟩
  | evicted v => exact ⟨updBucket_caps h.1 hb', h.2⟩

theorem capsOk_addAddress (am : AddrManager) (na src : NetAddress) (extra : Bool)
    (rnds : List (Nat × Nat)) (nowTs : Int) (h : capsOk am) :
    capsOk (addAddress am na src extra rnds nowTs) := by
  rw [addAddress]
  by_cases hva : validAddress na = false
  · rw [if_pos hva]; exact h
  · rw [if_neg hva]
    have hins : ∀ vf : List AddrKey → Option AddrKey,
        (∀ bk v, vf bk = some v → v ∈ bk) →
        (bucketInsert vf
          (am.addrNew (newBucketIdx am.secretKey (groupOf na) (groupOf src)))
          (keyOf na)).1.length ≤ bucketSize := by
      intro vf hvf
      exact bucketInsert_length_le
        (h.1 (newBucketIdx am.secretKey (groupOf na) (groupOf src))) (hvf _)
    cases hf : findKA am.addrIndex (keyOf na) with
    | none =>
        rw [addApply]
        exact capsOk_unseenApply h
          (hins _ (fun bk v hv => pickVictim_mem hv))
    | some ka =>
        rw [addApply]
        by_cases ht : ka.tried
        · rw [if_pos ht]; exact h
        · rw [if_neg ht]
          by_cases hx : (extra && decide ((refreshKA ka na).refs < refCap)) = true
          · rw [if_pos hx]
            exact capsOk_knownApply h (hins _ (fun bk v hv => pickVictim_mem hv))
          · rw [if_neg hx]; exact h

theorem capsOk_markAttempt (am : AddrManager) (k : AddrKey) (nowTs : Int)
    (h : capsOk am) : capsOk (markAttempt am k nowTs) := by
  rw [markAttempt]
  cases findKA am.addrIndex k with
  | none => exact h
  | some ka => exact h

theorem capsOk_demote (am : AddrManager) (v : AddrKey) (h : capsOk am) :
    capsOk (demote am v) := by
  rw [demote]
  cases hf : findKA am.addrIndex v with
  | none => exact h
  | some kv =>
      rw [demoteApply]
      by_cases h1 : v ∈ am.addrNew (newBucketIdx am.secretKey (groupOf kv.na) (groupOf kv.srcAddr))
      · rw [if_pos h1]; exact h
      · rw [if_neg h1]
        by_cases h2 : (am.addrNew (newBucketIdx am.secretKey (groupOf kv.na)
            (groupOf kv.srcAddr))).length < bucketSize
        · rw [if_pos h2]
          refine ⟨updBucket_caps h.1 ?_, h.2⟩
          simpa using h2
        · rw [if_neg h2]; exact h

theorem capsOk_triedInsertApply {am : AddrManager} {tb : Fin triedBucketCount}
    {r : List AddrKey × InsOutcome} (h : capsOk am) (hr : r.1.length ≤ bucketSize) :
    capsOk (triedInsertApply am tb r) := by
  obtain ⟨b', o⟩ := r
  have hb' : b'.length ≤ bucketSize := hr
  cases o with
  | present => exact ⟨h.1, updBucket_caps h.2 hb'⟩
  | rejected => exact ⟨h.1, updBucket_caps h.2 hb'⟩
  | inserted => exact ⟨h.1, updBucket_caps h.2 hb'⟩
  | evicted v => exact capsOk_demote _ v ⟨h.1, updBucket_caps h.2 hb'⟩

theorem capsOk_promote (am1 : AddrManager) (k : AddrKey) (tb : Fin triedBucketCount)
    (nowTs : Int) (rnds : List (Nat × Nat)) (h : capsOk am1) :
    capsOk (promote am1 k tb nowTs rnds) :=
  capsOk_triedInsertApply h
    (bucketInsert_length_le (h.2 tb) (fun v hv => pickVictim_mem hv))

theorem capsOk_markGood (am : AddrManager) (k : AddrKey) (nowTs : Int)
    (rnds : List (Nat × Nat)) (h : capsOk am) : capsOk (markGood am k nowTs rnds) := by
  rw [markGood]
  cases hf : findKA am.addrIndex k with
  | none => exact h
  | some ka =>
      rw [markGoodApply]
      by_cases ht : ka.tried
      · rw [if_pos ht]; exact h
      · rw [if_neg ht]
        refine capsOk_promote _ k _ nowTs rnds ⟨?_, h.2⟩
        intro i
        exact le_trans (List.length_filter_le _ _) (h.1 i)

theorem placeEntry_caps (sk : Nat)
    {t : (Fin newBucketCount → List AddrKey) × (Fin triedBucketCount → List AddrKey)}
    (h1 : ∀ i, (t.1 i).length ≤ bucketSize) (h2 : ∀ j, (t.2 j).length ≤ bucketSize)
    (p : AddrKey × SerialKA) :
    (∀ i, ((placeEntry sk t p).1 i).length ≤ bucketSize) ∧
    (∀ j, ((placeEntry sk t p).2 j).length ≤ bucketSize) := by
  rw [placeEntry]
  by_cases htr : p.2.tried
  · rw [if_pos htr]
    by_cases hg : p.1 ∉ t.2 (triedBucketIdx sk (groupOf p.2.na)) ∧
        (t.2 (triedBucketIdx sk (groupOf p.2.na))).length < bucketSize
    · rw [if_pos hg]
      exact ⟨h1, updBucket_caps h2 (by simpa using hg.2)⟩
    · rw [if_neg hg]; exact ⟨h1, h2⟩
  · rw [if_neg htr]
    by_cases hg : p.1 ∉ t.1 (newBucketIdx sk (groupOf p.2.na) (groupOf p.2.srcAddr)) ∧
        (t.1 (newBucketIdx sk (groupOf p.2.na) (groupOf p.2.srcAddr))).length < bucketSize
    · rw [if_pos hg]
      exact ⟨updBucket_caps h1 (by simpa using hg.2), h2⟩
    · rw [if_neg hg]; exact ⟨h1, h2⟩

theorem capsOk_deserialize (rec : SerializedState) (fresh : Nat) :
    capsOk (deserialize rec fresh) := by
  rw [deserialize]
  by_cases hv : rec.version = serialVersion
  · rw [if_pos hv]
    have := foldl_preserve
      (fun t : (Fin newBucketCount → List AddrKey) × (Fin triedBucketCount → List AddrKey) =>
        (∀ i, (t.1 i).length ≤ bucketSize) ∧ (∀ j, (t.2 j).length ≤ bucketSize))
      (placeEntry rec.secretKey)
      (fun t p ht => placeEntry_caps rec.secretKey ht.1 ht.2 p)
      rec.entries (fun _ => [], fun _ => [])
      ⟨fun _ => by simp [bucketSize], fun _ => by simp [bucketSize]⟩
    exact ⟨this.1, this.2⟩
  · rw [if_neg hv]
    exact ⟨fun _ => by simp [bucketSize], fun _ => by simp [bucketSize]⟩

/-- C1: in every observable state, every stored KnownAddress satisfies
exactly one of New (`tried=false`, `refCount≥1`), Tried (`tried=true`,
`refCount=0`) or Orphaned (`tried=false`, `refCount=0`) — in particular
every tried record has zero references — and the invariant is preserved by
`AddAddresses`, single-address discovery, `MarkAttempt`, `MarkGood` and the
persistence load.  `GetAddress`/`GetAddresses` are pure queries that do not
change the state, so they preserve it trivially. -/
theorem c1_three_state_invariant (am : AddrManager) (na src : NetAddress)
    (addrs : List NetAddress) (k : AddrKey) (extra : Bool)
    (rnds : List (Nat × Nat)) (nowTs : Int) (rec : SerializedState) (fresh : Nat)
    (h : statesOk am) :
    statesOk (addAddresses am addrs src extra rnds nowTs) ∧
    statesOk (addAddress am na src extra rnds nowTs) ∧
    statesOk (markAttempt am k nowTs) ∧
    statesOk (markGood am k nowTs rnds) ∧
    statesOk (deserialize rec fresh) := by
  have h' := (statesOk_iff am).mp h
  refine ⟨?_, ?_, ?_, ?_, ?_⟩
  · rw [statesOk_iff, addAddresses]
    exact foldl_preserve (fun a : AddrManager => idxOk a.addrIndex) _
      (fun a x ha => idxOk_addAddress a x src extra rnds nowTs ha) addrs am h'
  · exact (statesOk_iff _).mpr (idxOk_addAddress am na src extra rnds nowTs h')
  · exact (statesOk_iff _).mpr (idxOk_markAttempt am k nowTs h')
  · exact (statesOk_iff _).mpr (idxOk_markGood am k nowTs rnds h')
  · exact (statesOk_iff _).mpr (idxOk_deserialize rec fresh)

/-- Concrete check of C1 starting from the empty manager. -/
theorem c1_three_state_invariant_witness :
    statesOk (emptyManager 0) ∧
    statesOk (addAddress (emptyManager 0) na0 src0 true [] 0) ∧
    statesOk (markGood (emptyManager 0) (keyOf na0) 0 []) :=
  have h0 : statesOk (emptyManager 0) := by
    intro p hp; simp [emptyManager] at hp
  ⟨h0,
   (c1_three_state_invariant (emptyManager 0) na0 src0 [na0] (keyOf na0) true [] 0
      rec0 3 h0).2.1,
   (c1_three_state_invariant (emptyManager 0) na0 src0 [na0] (keyOf na0) true [] 0
      rec0 3 h0).2.2.2.1⟩

/-- C2: no bucket of the New table (1024 buckets of 64 slots) and no bucket
of the Tried table (64 buckets of 64 slots) ever holds more entries than its
fixed capacity, and every operation of the address manager preserves this;
a freshly loaded state satisfies it unconditionally. -/
theorem c2_bucket_capacity (am : AddrManager) (na src : NetAddress)
    (addrs : List NetAddress) (k : AddrKey) (extra : Bool)
    (rnds : List (Nat × Nat)) (nowTs : Int) (rec : SerializedState) (fresh : Nat)
    (h : capsOk am) :
    capsOk (addAddresses am addrs src extra rnds nowTs) ∧
    capsOk (addAddress am na src extra rnds nowTs) ∧
    capsOk (markAttempt am k nowTs) ∧
    capsOk (markGood am k nowTs rnds) ∧
    capsOk (deserialize rec fresh) := by
  refine ⟨?_, ?_, ?_, ?_, ?_⟩
  · rw [addAddresses]
    exact foldl_preserve capsOk _
      (fun a x ha => capsOk_addAddress a x src extra rnds nowTs ha) addrs am h
  · exact capsOk_addAddress am na src extra rnds nowTs h
  · exact capsOk_markAttempt am k nowTs h
  · exact capsOk_markGood am k nowTs rnds h
  · exact capsOk_deserialize rec fresh

/-- Concrete check of C2 starting from the empty manager. -/
theorem c2_bucket_capacity_witness :
    capsOk (emptyManager 0) ∧
    capsOk (addAddress (emptyManager 0) na0 src0 true [] 0) ∧
    capsOk (markGood (emptyManager 0) (keyOf na0) 0 []) :=
  have h0 : capsOk (emptyManager 0) :=
    ⟨fun _ => Nat.zero_le _, fun _ => Nat.zero_le _⟩
  ⟨h0,
   (c2_bucket_capacity (emptyManager 0) na0 src0 [na0] (keyOf na0) true [] 0
      rec0 3 h0).2.1,
   (c2_bucket_capacity (emptyManager 0) na0 src0 [na0] (keyOf na0) true [] 0
      rec0 3 h0).2.2.2.1⟩

/-- C3: inserting into a bucket at full capacity leaves it at exactly its
capacity — either exactly one prior occupant is removed and the newcomer
takes its place, or the newcomer is rejected (it was already present) —
and eviction is triggered only by insertions into a full bucket. -/
theorem c3_eviction_bound (look : AddrKey → Option KnownAddress) (nowTs : Int)
    (rnds : List (Nat × Nat)) (bucket bucket2 : List AddrKey) (k k2 : AddrKey)
    (hfull : bucket.length = bucketSize) (hsmall : bucket2.length < bucketSize) :
    (bucketInsert (pickVictim look nowTs rnds) bucket k).1.length = bucketSize ∧
    ((∃ v, (bucketInsert (pickVictim look nowTs rnds) bucket k).2 = InsOutcome.evicted v ∧
        v ∈ bucket ∧
        (bucketInsert (pickVictim look nowTs rnds) bucket k).1 = k :: bucket.erase v) ∨
      ((bucketInsert (pickVictim look nowTs rnds) bucket k).1 = bucket ∧
        (bucketInsert (pickVictim look nowTs rnds) bucket k).2 = InsOutcome.present)) ∧
    (∀ v, (bucketInsert (pickVictim look nowTs rnds) bucket2 k2).2 ≠ InsOutcome.evicted v) := by
  refine ⟨?_, ?_, bucketInsert_no_evict_of_not_full hsmall⟩ <;>
  · unfold bucketInsert
    by_cases hmem : k ∈ bucket
    · rw [if_pos hmem]
      first
      | exact hfull
      | exact Or.inr ⟨rfl, rfl⟩
    · have hnlt : ¬ bucket.length < bucketSize := by omega
      rw [if_neg hmem, if_neg hnlt]
      have hne : bucket ≠ [] := by
        intro hb
        rw [hb] at hfull
        simp [bucketSize] at hfull
      cases hvic : pickVictim look nowTs rnds bucket with
      | none => exact absurd hvic (pickVictim_ne_none hne)
      | some v =>
          have hvmem : v ∈ bucket := pickVictim_mem hvic
          first
          | · show (k :: bucket.erase v).length = bucketSize
              have hpos : 0 < bucket.length := List.length_pos.mpr hne
              simp only [List.length_cons, List.length_erase_of_mem hvmem]
              omega
          | exact Or.inl ⟨v, rfl, hvmem, rfl⟩

/-- Concrete check of C3 on a full bucket of 64 distinct keys. -/
theorem c3_eviction_bound_witness :
    fullBucket.length = bucketSize ∧
    (bucketInsert (pickVictim (fun _ => none) 0 []) fullBucket (100, 1)).1.length
      = bucketSize :=
  ⟨by decide,
   (c3_eviction_bound (fun _ => none) 0 [] fullBucket [] (100, 1) (1, 1)
      (by decide) (by decide)).1⟩

theorem not_mem_filter_ne (l : List AddrKey) (k : AddrKey) :
    k ∉ l.filter (fun x => x ≠ k) := by
  intro h
  have := List.of_mem_filter h
  simp at this

theorem demote_addrTried_eq (am : AddrManager) (v : AddrKey) :
    (demote am v).addrTried = am.addrTried := by
  rw [demote]
  cases hf : findKA am.addrIndex v with
  | none => rfl
  | some kv =>
      rw [demoteApply]
      by_cases h1 : v ∈ am.addrNew (newBucketIdx am.secretKey (groupOf kv.na) (groupOf kv.srcAddr))
      · rw [if_pos h1]
      · rw [if_neg h1]
        by_cases h2 : (am.addrNew (newBucketIdx am.secretKey (groupOf kv.na)
            (groupOf kv.srcAddr))).length < bucketSize
        · rw [if_pos h2]
        · rw [if_neg h2]

theorem demote_addrNew_not_mem (am : AddrManager) (v k : AddrKey)
    (h : ∀ i, k ∉ am.addrNew i) (hvk : v ≠ k) :
    ∀ i, k ∉ (demote am v).addrNew i := by
  rw [demote]
  cases hf : findKA am.addrIndex v with
  | none => exact h
  | some kv =>
      rw [demoteApply]
      by_cases h1 : v ∈ am.addrNew (newBucketIdx am.secretKey (groupOf kv.na) (groupOf kv.srcAddr))
      · rw [if_pos h1]; exact h
      · rw [if_neg h1]
        by_cases h2 : (am.addrNew (newBucketIdx am.secretKey (groupOf kv.na)
            (groupOf kv.srcAddr))).length < bucketSize
        · rw [if_pos h2]
          intro i
          show k ∉ updBucket am.addrNew
            (newBucketIdx am.secretKey (groupOf kv.na) (groupOf kv.srcAddr))
            (v :: am.addrNew (newBucketIdx am.secretKey (groupOf kv.na) (groupOf kv.srcAddr))) i
          by_cases hin : i = newBucketIdx am.secretKey (groupOf kv.na) (groupOf kv.srcAddr)
          · rw [hin, updBucket_same]
            intro hmem
            rcases List.mem_cons.mp hmem with h3 | h3
            · exact hvk h3.symm
            · exact h _ h3
          · rw [updBucket_other _ _ _ _ hin]
            exact h i
        · rw [if_neg h2]; exact h

theorem demote_findKA_ne (am : AddrManager) (v k : AddrKey) (hkv : k ≠ v) :
    findKA (demote am v).addrIndex k = findKA am.addrIndex k := by
  rw [demote]
  cases hf : findKA am.addrIndex v with
  | none => rfl
  | some kv =>
      rw [demoteApply]
      by_cases h1 : v ∈ am.addrNew (newBucketIdx am.secretKey (groupOf kv.na) (groupOf kv.srcAddr))
      · rw [if_pos h1]
        exact findKA_setKA_ne _ v k _ hkv
      · rw [if_neg h1]
        by_cases h2 : (am.addrNew (newBucketIdx am.secretKey (groupOf kv.na)
            (groupOf kv.srcAddr))).length < bucketSize
        · rw [if_pos h2]
          exact findKA_setKA_ne _ v k _ hkv
        · rw [if_neg h2]
          exact findKA_delKA_ne _ v k hkv

theorem demote_props (am2 : AddrManager) (v k : AddrKey) (tb : Fin triedBucketCount)
    (ka1 : KnownAddress) (hvk : v ≠ k)
    (hnew : ∀ i, k ∉ am2.addrNew i)
    (hcnt : (am2.addrTried tb).count k = 1)
    (hother : ∀ j, j ≠ tb → k ∉ am2.addrTried j)
    (hfind : findKA am2.addrIndex k = some ka1) :
    (∀ i, k ∉ (demote am2 v).addrNew i) ∧
    ((demote am2 v).addrTried tb).count k = 1 ∧
    (∀ j, j ≠ tb → k ∉ (demote am2 v).addrTried j) ∧
    findKA (demote am2 v).addrIndex k = some ka1 := by
  have htr := demote_addrTried_eq am2 v
  refine ⟨demote_addrNew_not_mem am2 v k hnew hvk, ?_, ?_, ?_⟩
  · rw [htr]; exact hcnt
  · intro j hj; rw [htr]; exact hother j hj
  · rw [demote_findKA_ne am2 v k (fun h => hvk h.symm)]; exact hfind

theorem promote_props (am1 : AddrManager) (k : AddrKey) (tb : Fin triedBucketCount)
    (nowTs : Int) (rnds : List (Nat × Nat)) (ka1 : KnownAddress)
    (hnew : ∀ i, k ∉ am1.addrNew i)
    (hfind1 : findKA am1.addrIndex k = some ka1)
    (hnt : ∀ j, k ∉ am1.addrTried j) :
    (∀ i, k ∉ (promote am1 k tb nowTs rnds).addrNew i) ∧
    ((promote am1 k tb nowTs rnds).addrTried tb).count k = 1 ∧
    (∀ j, j ≠ tb → k ∉ (promote am1 k tb nowTs rnds).addrTried j) ∧
    findKA (promote am1 k tb nowTs rnds).addrIndex k = some ka1 := by
  have hkb : k ∉ am1.addrTried tb := hnt tb
  rw [promote]
  unfold bucketInsert
  rw [if_neg hkb]
  by_cases hlen : (am1.addrTried tb).length < bucketSize
  · rw [if_pos hlen]
    refine ⟨hnew, ?_, ?_, hfind1⟩
    · show (updBucket am1.addrTried tb (k :: am1.addrTried tb) tb).count k = 1
      rw [updBucket_same, List.count_cons_self,
        List.count_eq_zero_of_not_mem hkb]
    · intro j hj
      show k ∉ updBucket am1.addrTried tb (k :: am1.addrTried tb) j
      rw [updBucket_other _ _ _ _ hj]
      exact hnt j
  · rw [if_neg hlen]
    have hbs : 0 < bucketSize := by decide
    have hge : bucketSize ≤ (am1.addrTried tb).length := Nat.le_of_not_lt hlen
    have hne : am1.addrTried tb ≠ [] := by
      intro hb
      rw [hb] at hge
      simp at hge
      omega
    cases hvic : pickVictim (findKA am1.addrIndex) nowTs rnds (am1.addrTried tb) with
    | none => exact absurd hvic (pickVictim_ne_none hne)
    | some v =>
        have hvmem : v ∈ am1.addrTried tb := pickVictim_mem hvic
        have hvk : v ≠ k := fun h => hkb (h ▸ hvmem)
        exact demote_props
          { am1 with addrTried := (updBucket am1.addrTried tb
              (k :: (am1.addrTried tb).erase v)) }
          v k tb ka1 hvk hnew
          (by
            show (updBucket am1.addrTried tb (k :: (am1.addrTried tb).erase v) tb).count k = 1
            rw [updBucket_same, List.count_cons_self,
              List.count_eq_zero_of_not_mem (fun h => hkb (List.mem_of_mem_erase h))])
          (fun j hj => by
            show k ∉ updBucket am1.addrTried tb (k :: (am1.addrTried tb).erase v) j
            rw [updBucket_other _ _ _ _ hj]
            exact hnt j)
          hfind1

/-- C4: after `MarkGood(addr)` on a stored New-only address, the address is
absent from every New bucket (its reference count is 0), present in exactly
one slot of exactly the Tried bucket computed from its group, its attempts
counter is reset to 0, and its `lastSuccess` timestamp is set to the current
time. -/
theorem c4_promotion_correctness (am : AddrManager) (k : AddrKey)
    (ka : KnownAddress) (nowTs : Int) (rnds : List (Nat × Nat))
    (hfind : findKA am.addrIndex k = some ka)
    (htried : ka.tried = false)
    (hnotin : ∀ j, k ∉ am.addrTried j) :
    (∀ i, k ∉ (markGood am k nowTs rnds).addrNew i) ∧
    ((markGood am k nowTs rnds).addrTried
        (triedBucketIdx am.secretKey (groupOf ka.na))).count k = 1 ∧
    (∀ j, j ≠ triedBucketIdx am.secretKey (groupOf ka.na) →
        k ∉ (markGood am k nowTs rnds).addrTried j) ∧
    findKA (markGood am k nowTs rnds).addrIndex k =
      some { ka with tried := true, refs := 0, attempts := 0, lastSuccess := nowTs } := by
  rw [markGood, hfind, markGoodApply, if_neg (show ¬ ka.tried = true by simp [htried])]
  exact promote_props _ k _ nowTs rnds _
    (fun i => not_mem_filter_ne _ _)
    (findKA_setKA_self _ _ _)
    hnotin

theorem getAddressLoop_sound (am : AddrManager) (nowTs : Int) (excl : List AddrKey) :
    ∀ (picks : List AddrKey) (p : AddrKey) (ka : KnownAddress),
      getAddressLoop am nowTs excl picks = some (p, ka) →
      findKA am.addrIndex p = some ka ∧ terrible ka nowTs = false ∧ p ∉ excl := by
  intro picks
  induction picks with
  | nil => intro p ka h; simp [getAddressLoop] at h
  | cons q rest ih =>
      intro p ka h
      rw [getAddressLoop] at h
      cases hf : findKA am.addrIndex q with
      | none =>
          rw [hf, getAddressStep] at h
          exact ih p ka h
      | some ka' =>
          rw [hf, getAddressStep] at h
          by_cases hc : terrible ka' nowTs = false ∧ q ∉ excl
          · rw [if_pos hc] at h
            injection h with h1
            injection h1 with h2 h3
            subst h2
            subst h3
            exact ⟨hf, hc.1, hc.2⟩
          · rw [if_neg hc] at h
            exact ih p ka h

theorem candApply_sound {p : AddrKey} {nowTs : Int} {o : Option KnownAddress}
    {q : AddrKey × KnownAddress} (h : candApply p nowTs o = some q) :
    o = some q.2 ∧ q.1 = p ∧ terrible q.2 nowTs = false := by
  cases o with
  | none => simp [candApply] at h
  | some ka =>
      rw [candApply] at h
      by_cases hc : terrible ka nowTs = false
      · rw [if_pos hc] at h
        injection h with h1
        subst h1
        exact ⟨rfl, rfl, hc⟩
      · rw [if_neg hc] at h
        cases h

/-- C5: with a fixed clock, `GetAddress` never returns an address that is
Terrible at call time or in the caller's exclusion set, `GetAddresses` never
returns a Terrible address, and `GetAddress` examines at most `retryLimit`
sampled candidates before signaling "no candidate". -/
theorem c5_terrible_exclusion (am : AddrManager) (nowTs : Int)
    (excl : List AddrKey) (picks : List AddrKey) (n : Nat)
    (order : List AddrKey) (p : AddrKey) (ka : KnownAddress) :
    (getAddress am nowTs excl picks = some (p, ka) →
      findKA am.addrIndex p = some ka ∧ terrible ka nowTs = false ∧ p ∉ excl) ∧
    (∀ q ∈ getAddresses am nowTs n order, terrible q.2 nowTs = false) ∧
    getAddress am nowTs excl picks = getAddress am nowTs excl (picks.take retryLimit) := by
  refine ⟨?_, ?_, ?_⟩
  · intro h
    exact getAddressLoop_sound am nowTs excl _ p ka h
  · intro q hq
    rw [getAddresses] at hq
    have hq2 := List.mem_of_mem_take hq
    obtain ⟨a, _, ha2⟩ := List.mem_filterMap.mp hq2
    exact (candApply_sound ha2).2.2
  · rw [getAddress, getAddress, List.take_take, min_self]

/-- Concrete check of C5: on a one-address manager with a fresh record, the
single candidate is returned and is neither Terrible nor excluded. -/
theorem c5_terrible_exclusion_witness :
    getAddress oneAddrManager 10 [] [keyOf na0] =
      some (keyOf na0, mkKnownAddress na0 src0) ∧
    terrible (mkKnownAddress na0 src0) 10 = false ∧ keyOf na0 ∉ ([] : List AddrKey) :=
  ⟨by decide,
   ((c5_terrible_exclusion oneAddrManager 10 [] [keyOf na0] 5 []
      (keyOf na0) (mkKnownAddress na0 src0)).1 (by decide)).2⟩

/-- C6: `GetAddresses(n)` returns at most
`min(n, max(fixedFloor, fraction · totalKnown))` entries, for every manager
state and request size. -/
theorem c6_anti_snooping_bound (am : AddrManager) (nowTs : Int) (n : Nat)
    (order : List AddrKey) :
    (getAddresses am nowTs n order).length ≤
      min n (max addrFloor (addrPercent * numAddresses am / 100)) := by
  rw [getAddresses]
  exact le_trans (List.length_take_le _ _) (le_of_eq rfl)

/-- Concrete check of C4 on a one-address manager. -/
theorem c4_promotion_correctness_witness :
    ((markGood oneAddrManager (keyOf na0) 5 []).addrTried
        (triedBucketIdx oneAddrManager.secretKey
          (groupOf (mkKnownAddress na0 src0).na))).count (keyOf na0) = 1 ∧
    findKA (markGood oneAddrManager (keyOf na0) 5 []).addrIndex (keyOf na0) =
      some { mkKnownAddress na0 src0 with
        tried := true, refs := 0, attempts := 0, lastSuccess := 5 } :=
  ⟨(c4_promotion_correctness oneAddrManager (keyOf na0) (mkKnownAddress na0 src0)
      5 [] (by decide) rfl (fun _ => List.not_mem_nil _)).2.1,
   (c4_promotion_correctness oneAddrManager (keyOf na0) (mkKnownAddress na0 src0)
      5 [] (by decide) rfl (fun _ => List.not_mem_nil _)).2.2.2⟩

theorem keys_setKA_found {idx : List (AddrKey × KnownAddress)} {k : AddrKey}
    {ka ka' : KnownAddress} (h : findKA idx k = some ka') :
    (setKA idx k ka).map Prod.fst = idx.map Prod.fst := by
  induction idx with
  | nil => simp [findKA] at h
  | cons q t ih =>
      rw [findKA] at h
      rw [setKA]
      by_cases hq : q.1 = k
      · rw [if_pos hq]
        simp [hq]
      · rw [if_neg hq] at h
        rw [if_neg hq, List.map_cons, List.map_cons, ih h]

theorem keys_delKA_count_ne {idx : List (AddrKey × KnownAddress)} {v k : AddrKey}
    (h : k ≠ v) :
    ((delKA idx v).map Prod.fst).count k = (idx.map Prod.fst).count k := by
  induction idx with
  | nil => rfl
  | cons q t ih =>
      rw [delKA] at ih ⊢
      rw [List.filter]
      by_cases hq : q.1 = v
      · have hd : (decide (q.1 ≠ v)) = false := by simp [hq]
        rw [hd, List.map_cons,
          List.count_cons_of_ne (show k ≠ q.1 by rw [hq]; exact h)]
        exact ih
      · have hd : (decide (q.1 ≠ v)) = true := by simp [hq]
        rw [hd, List.map_cons, List.map_cons, List.count_cons, List.count_cons, ih]

theorem keys_decRef_count_ne {idx : List (AddrKey × KnownAddress)} {v k : AddrKey}
    (h : k ≠ v) :
    ((decRef idx v).map Prod.fst).count k = (idx.map Prod.fst).count k := by
  rw [decRef]
  cases hf : findKA idx v with
  | none => rw [decRefAux]
  | some kv =>
      rw [decRefAux]
      by_cases hr : kv.refs ≤ 1
      · rw [if_pos hr]
        exact keys_delKA_count_ne h
      · rw [if_neg hr]
        rw [keys_setKA_found hf]

theorem addFresh_props (am : AddrManager) (na src : NetAddress) (e1 : Bool)
    (r1 : List (Nat × Nat)) (t1 : Int)
    (hval : validAddress na = true)
    (hfind : findKA am.addrIndex (keyOf na) = none)
    (hbuck : ∀ i, keyOf na ∉ am.addrNew i) :
    findKA (addAddress am na src e1 r1 t1).addrIndex (keyOf na) =
      some (mkKnownAddress na src) ∧
    keyOf na ∈ (addAddress am na src e1 r1 t1).addrNew
      (newBucketIdx (addAddress am na src e1 r1 t1).secretKey (groupOf na) (groupOf src)) ∧
    ((addAddress am na src e1 r1 t1).addrIndex.map Prod.fst).count (keyOf na) = 1 := by
  have hkeys : keyOf na ∉ am.addrIndex.map Prod.fst := findKA_eq_none hfind
  rw [addAddress, if_neg (by simp [hval]), hfind, addApply]
  unfold bucketInsert
  rw [if_neg (hbuck _)]
  by_cases hlen : (am.addrNew (newBucketIdx am.secretKey (groupOf na)
      (groupOf src))).length < bucketSize
  · rw [if_pos hlen]
    refine ⟨?_, ?_, ?_⟩
    · show findKA ((keyOf na, mkKnownAddress na src) :: am.addrIndex) (keyOf na) = _
      rw [findKA, if_pos rfl]
    · show keyOf na ∈ updBucket am.addrNew
        (newBucketIdx am.secretKey (groupOf na) (groupOf src))
        (keyOf na :: am.addrNew (newBucketIdx am.secretKey (groupOf na) (groupOf src)))
        (newBucketIdx am.secretKey (groupOf na) (groupOf src))
      rw [updBucket_same]
      exact List.mem_cons_self _ _
    · show (((keyOf na, mkKnownAddress na src) :: am.addrIndex).map Prod.fst).count
        (keyOf na) = 1
      rw [List.map_cons, List.count_cons_self, List.count_eq_zero_of_not_mem hkeys]
  · rw [if_neg hlen]
    have hge : bucketSize ≤ (am.addrNew (newBucketIdx am.secretKey (groupOf na)
        (groupOf src))).length := Nat.le_of_not_lt hlen
    have hne : am.addrNew (newBucketIdx am.secretKey (groupOf na) (groupOf src)) ≠ [] := by
      intro hb
      rw [hb] at hge
      simp [bucketSize] at hge
    cases hvic : pickVictim (findKA am.addrIndex) t1 r1
        (am.addrNew (newBucketIdx am.secretKey (groupOf na) (groupOf src))) with
    | none => exact absurd hvic (pickVictim_ne_none hne)
    | some v =>
        have hvmem := pickVictim_mem hvic
        have hkv : keyOf na ≠ v := fun h => hbuck _ (h ▸ hvmem)
        refine ⟨?_, ?_, ?_⟩
        · show findKA (decRef ((keyOf na, mkKnownAddress na src) :: am.addrIndex) v)
            (keyOf na) = _
          rw [findKA_decRef_ne _ v _ hkv, findKA, if_pos rfl]
        · show keyOf na ∈ updBucket am.addrNew
            (newBucketIdx am.secretKey (groupOf na) (groupOf src))
            (keyOf na :: (am.addrNew (newBucketIdx am.secretKey (groupOf na)
              (groupOf src))).erase v)
            (newBucketIdx am.secretKey (groupOf na) (groupOf src))
          rw [updBucket_same]
          exact List.mem_cons_self _ _
        · show ((decRef ((keyOf na, mkKnownAddress na src) :: am.addrIndex) v).map
            Prod.fst).count (keyOf na) = 1
          rw [keys_decRef_count_ne hkv, List.map_cons, List.count_cons_self,
            List.count_eq_zero_of_not_mem hkeys]

theorem addAgain_eq (am1 : AddrManager) (na src : NetAddress) (e2 : Bool)
    (r2 : List (Nat × Nat)) (t2 : Int)
    (hval : validAddress na = true)
    (hfind1 : findKA am1.addrIndex (keyOf na) = some (mkKnownAddress na src))
    (hmem : keyOf na ∈ am1.addrNew
      (newBucketIdx am1.secretKey (groupOf na) (groupOf src))) :
    addAddress am1 na src e2 r2 t2 = am1 := by
  have hre : refreshKA (mkKnownAddress na src) na = mkKnownAddress na src := rfl
  rw [addAddress, if_neg (by simp [hval]), hfind1, addApply,
    if_neg (show ¬ (mkKnownAddress na src).tried = true by simp [mkKnownAddress])]
  cases e2 with
  | false =>
      rw [if_neg (by simp)]
      rw [hre, setKA_self hfind1]
  | true =>
      rw [if_pos (show (true && decide ((refreshKA (mkKnownAddress na src) na).refs
        < refCap)) = true from rfl)]
      unfold bucketInsert
      rw [if_pos hmem]
      show { am1 with addrIndex := (setKA am1.addrIndex (keyOf na)
        (refreshKA (mkKnownAddress na src) na)) } = am1
      rw [hre, setKA_self hfind1]

/-- C7: calling `AddAddresses` twice with an identical (ip, port, source)
tuple leaves exactly one stored record for that (IP, port) identity; the
second call is a no-op on the whole state (its metadata refresh writes back
identical values and no further bucket reference is added, since the
canonical bucket already references the record). -/
theorem c7_add_addresses_idempotent (am : AddrManager) (na src : NetAddress)
    (e1 e2 : Bool) (r1 r2 : List (Nat × Nat)) (t1 t2 : Int)
    (hval : validAddress na = true)
    (hfind : findKA am.addrIndex (keyOf na) = none)
    (hbuck : ∀ i, keyOf na ∉ am.addrNew i) :
    addAddresses (addAddresses am [na] src e1 r1 t1) [na] src e2 r2 t2 =
      addAddresses am [na] src e1 r1 t1 ∧
    ((addAddresses am [na] src e1 r1 t1).addrIndex.map Prod.fst).count (keyOf na) = 1 ∧
    findKA (addAddresses am [na] src e1 r1 t1).addrIndex (keyOf na) =
      some (mkKnownAddress na src) := by
  obtain ⟨ffind, fmem, fcount⟩ := addFresh_props am na src e1 r1 t1 hval hfind hbuck
  have h1 : addAddresses am [na] src e1 r1 t1 = addAddress am na src e1 r1 t1 := rfl
  have h2 : ∀ b : AddrManager, addAddresses b [na] src e2 r2 t2 =
      addAddress b na src e2 r2 t2 := fun b => rfl
  refine ⟨?_, ?_, ?_⟩
  · rw [h1, h2]
    exact addAgain_eq _ na src e2 r2 t2 hval ffind fmem
  · rw [h1]; exact fcount
  · rw [h1]; exact ffind

/-- Concrete check of C7 starting from the empty manager. -/
theorem c7_add_addresses_idempotent_witness :
    ((addAddresses (emptyManager 0) [na0] src0 true [] 0).addrIndex.map
      Prod.fst).count (keyOf na0) = 1 ∧
    findKA (addAddresses (emptyManager 0) [na0] src0 true [] 0).addrIndex
      (keyOf na0) = some (mkKnownAddress na0 src0) :=
  ⟨(c7_add_addresses_idempotent (emptyManager 0) na0 src0 true true [] [] 0 0
      (by decide) rfl (fun _ => List.not_mem_nil _)).2.1,
   (c7_add_addresses_idempotent (emptyManager 0) na0 src0 true true [] [] 0 0
      (by decide) rfl (fun _ => List.not_mem_nil _)).2.2⟩

theorem findKA_loadSave :
    ∀ (idx : List (AddrKey × KnownAddress)) (k : AddrKey),
      findKA (idx.map (fun p => (p.1, loadKA (saveKA p.2)))) k =
        (findKA idx k).map (fun ka => loadKA (saveKA ka)) := by
  intro idx k
  induction idx with
  | nil => rfl
  | cons q t ih =>
      simp only [List.map_cons, findKA]
      by_cases hq : q.1 = k
      · simp [hq]
      · simp [hq, ih]

/-- C8: serializing the full manager state and deserializing it reproduces
an equivalent address set — for every key, the same persisted metadata
(NetAddress, source, attempts, lastAttempt, lastSuccess, tried flag) — and
the same secret key, so every recomputed New-table and Tried-table bucket
placement equals the placement before persisting. -/
theorem c8_persistence_roundtrip (am : AddrManager) (fresh : Nat) (k : AddrKey) :
    (deserialize (serialize am) fresh).secretKey = am.secretKey ∧
    (findKA (deserialize (serialize am) fresh).addrIndex k).map saveKA =
      (findKA am.addrIndex k).map saveKA ∧
    (∀ ka ka', findKA am.addrIndex k = some ka →
      findKA (deserialize (serialize am) fresh).addrIndex k = some ka' →
      newBucketIdx (deserialize (serialize am) fresh).secretKey (groupOf ka'.na)
          (groupOf ka'.srcAddr) =
        newBucketIdx am.secretKey (groupOf ka.na) (groupOf ka.srcAddr) ∧
      triedBucketIdx (deserialize (serialize am) fresh).secretKey (groupOf ka'.na) =
        triedBucketIdx am.secretKey (groupOf ka.na)) := by
  have hidx : (deserialize (serialize am) fresh).addrIndex =
      am.addrIndex.map (fun p => (p.1, loadKA (saveKA p.2))) := by
    rw [deserialize, if_pos (show (serialize am).version = serialVersion from rfl)]
    show (serialize am).entries.map (fun p => (p.1, loadKA p.2)) = _
    rw [serialize, List.map_map]
    rfl
  refine ⟨?_, ?_, ?_⟩
  · rw [deserialize, if_pos (show (serialize am).version = serialVersion from rfl)]
    rfl
  · rw [hidx, findKA_loadSave]
    cases findKA am.addrIndex k with
    | none => rfl
    | some ka => rfl
  · intro ka ka' h1 h2
    rw [hidx, findKA_loadSave, h1] at h2
    have h2' : some (loadKA (saveKA ka)) = some ka' := h2
    injection h2' with h3
    subst h3
    exact ⟨rfl, rfl⟩

/-- Concrete check of C8 on a one-address manager. -/
theorem c8_persistence_roundtrip_witness :
    (deserialize (serialize oneAddrManager) 3).secretKey = oneAddrManager.secretKey ∧
    newBucketIdx (deserialize (serialize oneAddrManager) 3).secretKey
        (groupOf (loadKA (saveKA (mkKnownAddress na0 src0))).na)
        (groupOf (loadKA (saveKA (mkKnownAddress na0 src0))).srcAddr) =
      newBucketIdx oneAddrManager.secretKey (groupOf (mkKnownAddress na0 src0).na)
        (groupOf (mkKnownAddress na0 src0).srcAddr) :=
  ⟨(c8_persistence_roundtrip oneAddrManager 3 (keyOf na0)).1,
   ((c8_persistence_roundtrip oneAddrManager 3 (keyOf na0)).2.2
      (mkKnownAddress na0 src0) (loadKA (saveKA (mkKnownAddress na0 src0)))
      (by decide) (by decide)).1⟩

end AddrMgr

namespace Chaincfg

theorem bytes4OfList_toList (b : Bytes4) : bytes4OfList b.toList = b := rfl

/-- C9: `Register(params)` returns `ErrDuplicateNet` iff `params.Net` is
already present in `registeredNets`; in that error case all four registration
maps are left unchanged; on success it returns nil and adds exactly the four
entries derived from `params`. -/
theorem c9_register_duplicate_net (st : RegState) (p : ChainParams) :
    ((Register st p).1 = some ChainErr.duplicateNet ↔ p.net ∈ st.registeredNets) ∧
    (p.net ∈ st.registeredNets → (Register st p).2 = st) ∧
    (p.net ∉ st.registeredNets →
      (Register st p).1 = none ∧
      (Register st p).2 =
        { registeredNets := p.net :: st.registeredNets
          pubKeyHashAddrIDs := p.pubKeyHashAddrID :: st.pubKeyHashAddrIDs
          scriptHashAddrIDs := p.scriptHashAddrID :: st.scriptHashAddrIDs
          hdPrivToPubKeyIDs :=
            (p.hdPrivateKeyID, p.hdPublicKeyID.toList) :: st.hdPrivToPubKeyIDs }) := by
  unfold Register
  by_cases h : p.net ∈ st.registeredNets <;> simp [h]

/-- Concrete check of C9: registering `sampleParams` over a state that
already holds its net leaves the maps unchanged; over the empty state it
succeeds. -/
theorem c9_register_duplicate_net_witness :
    (Register dupRegState sampleParams).2 = dupRegState ∧
    (Register emptyRegState sampleParams).1 = none :=
  ⟨(c9_register_duplicate_net dupRegState sampleParams).2.1 (by decide),
   ((c9_register_duplicate_net emptyRegState sampleParams).2.2 (by decide)).1⟩

/-- C10: after a successful `Register(params)`, looking up
`params.HDPrivateKeyID[:]` through `HDPrivateKeyToPublicKeyID` returns
`params.HDPublicKeyID[:]` with no error; any id slice whose length is not 4
yields `ErrUnknownHDKeyID`. -/
theorem c10_hd_key_roundtrip (st : RegState) (p : ChainParams) (id : List Nat)
    (h : p.net ∉ st.registeredNets) :
    HDPrivateKeyToPublicKeyID (Register st p).2 p.hdPrivateKeyID.toList =
      Except.ok p.hdPublicKeyID.toList ∧
    (id.length ≠ 4 →
      HDPrivateKeyToPublicKeyID st id = Except.error ChainErr.unknownHDKeyID) := by
  constructor
  · unfold Register
    simp only [h, if_neg, if_false]
    unfold HDPrivateKeyToPublicKeyID
    simp [Bytes4.toList, lookupHD, bytes4OfList]
  · intro hlen
    unfold HDPrivateKeyToPublicKeyID
    simp [hlen]

/-- Concrete check of C10 on the empty registration state. -/
theorem c10_hd_key_roundtrip_witness :
    HDPrivateKeyToPublicKeyID (Register emptyRegState sampleParams).2
      sampleParams.hdPrivateKeyID.toList = Except.ok sampleParams.hdPublicKeyID.toList ∧
    HDPrivateKeyToPublicKeyID emptyRegState [1, 2, 3] =
      Except.error ChainErr.unknownHDKeyID :=
  ⟨(c10_hd_key_roundtrip emptyRegState sampleParams [1, 2, 3] (by decide)).1,
   (c10_hd_key_roundtrip emptyRegState sampleParams [1, 2, 3] (by decide)).2 (by decide)⟩

end Chaincfg
